import Mathlib

/-!
# Verification of the zapbuycrypto trade pipeline

Shallow embedding of `main.go` (the latest of the three revisions contained in
the file is the authoritative implementation; the first revision's structured
buy endpoint is additionally embedded as `handleBuyV1`, since one claim cites
it).  Go strings are modelled as Lean `String`s (equivalently their `List Char`
of code points; all inputs touched by the claims are ASCII, where Go's
byte-oriented operations agree with the code-point view).  Go `float64`
amounts are modelled as `ℚ`; `strconv.ParseFloat` is modelled on its plain
decimal/exponent subset (hex floats, inf/nan and digit-separator forms are not
modelled — no claim exercises them).  Fallible Go calls (`getAccountInfo`,
`buyCrypto` transport outcomes) are modelled as `Option`-valued inputs of an
environment record, and handlers return their HTTP status, response body and
the ordered trace of external effects they performed.
-/

namespace Zap

/-! ## Go string helpers (strings.TrimSpace / ToLower / Fields / ...) -/

/-- Whitespace as recognized by `strings.TrimSpace` / `strings.Fields`
(ASCII subset of `unicode.IsSpace`). -/
def isGoSpace (c : Char) : Bool :=
  c = ' ' || c = '\t' || c = '\n' || c = '\r' || c = '\x0b' || c = '\x0c'

/-- `strings.TrimSpace`. -/
def goTrimSpace (s : String) : String :=
  String.mk (((s.toList.dropWhile isGoSpace).reverse.dropWhile isGoSpace).reverse)

/-- `strings.ToLower` (ASCII letters; the messages the claims exercise are ASCII). -/
def goToLower (s : String) : String :=
  String.mk (s.toList.map Char.toLower)

/-- `strings.ToUpper` (ASCII letters). -/
def goToUpper (s : String) : String :=
  String.mk (s.toList.map Char.toUpper)

/-- `strings.HasPrefix` on character lists. -/
def startsWithL : List Char → List Char → Bool
  | _, [] => true
  | [], _ :: _ => false
  | a :: as, b :: bs => a = b && startsWithL as bs

/-- `strings.HasPrefix`. -/
def goStartsWith (s p : String) : Bool :=
  startsWithL s.toList p.toList

/-- `strings.Contains` on character lists. -/
def containsL : List Char → List Char → Bool
  | [], sub => startsWithL [] sub
  | c :: t, sub => startsWithL (c :: t) sub || containsL t sub

/-- `strings.Contains`. -/
def goContainsSub (s sub : String) : Bool :=
  containsL s.toList sub.toList

/-- Accumulator pass of `strings.Fields`: split at whitespace runs, dropping
empty fields. -/
def fieldsAux : List Char → List Char → List (List Char)
  | [], acc => if acc.isEmpty then [] else [acc.reverse]
  | c :: cs, acc =>
    if isGoSpace c then
      if acc.isEmpty then fieldsAux cs [] else acc.reverse :: fieldsAux cs []
    else fieldsAux cs (c :: acc)

/-- `strings.Fields`. -/
def goFields (s : String) : List String :=
  (fieldsAux s.toList []).map String.mk

/-- Fuelled pass of `strings.Replace(s, old, new, -1)`: leftmost non-overlapping
replacement (for non-empty `old`, the only way the source calls it). -/
def replaceAux (old new : List Char) : Nat → List Char → List Char
  | 0, l => l
  | _ + 1, [] => []
  | fuel + 1, c :: cs =>
    if startsWithL (c :: cs) old && !old.isEmpty then
      new ++ replaceAux old new fuel (List.drop old.length (c :: cs))
    else
      c :: replaceAux old new fuel cs

/-- `strings.Replace(s, old, new, -1)`. -/
def goReplaceAll (s old new : String) : String :=
  String.mk (replaceAux old.toList new.toList s.toList.length s.toList)

/-! ## strconv.ParseFloat (decimal subset), over ℚ -/

def allDigits (l : List Char) : Bool := l.all Char.isDigit

def natOfDigits (l : List Char) : Nat :=
  l.foldl (fun a c => 10 * a + (c.toNat - 48)) 0

/-- Leading sign of a numeric literal: `(negative?, rest)`. -/
def parseSign : List Char → Bool × List Char
  | '+' :: r => (false, r)
  | '-' :: r => (true, r)
  | r => (false, r)

/-- Mantissa `digits[.digits]` with at least one digit, as a numerator and a
power-of-ten scale denominator. -/
def parseMantissa (l : List Char) : Option (ℕ × ℕ) :=
  match l.splitOn '.' with
  | [ip] =>
    if !ip.isEmpty && allDigits ip then some (natOfDigits ip, 1) else none
  | [ip, fp] =>
    if (!ip.isEmpty || !fp.isEmpty) && allDigits ip && allDigits fp then
      some (natOfDigits (ip ++ fp), 10 ^ fp.length)
    else none
  | _ => none

/-- Split a literal at the first exponent marker `e`/`E`, if any. -/
def splitExpChar (l : List Char) : List Char × Option (List Char) :=
  match l.span (fun c => c != 'e' && c != 'E') with
  | (m, []) => (m, none)
  | (m, _ :: rest) => (m, some rest)

/-- Exponent part after `e`/`E`: optional sign then digits. -/
def parseExpPart (l : List Char) : Option Int :=
  let (neg, r) := parseSign l
  if !r.isEmpty && allDigits r then
    some (if neg then -(natOfDigits r : Int) else (natOfDigits r : Int))
  else none

/-- Model of `strconv.ParseFloat(s, 64)` on plain decimal (and exponent)
literals, returning the exact rational value; `none` models a parse error. -/
def parseFloat (s : String) : Option ℚ :=
  let (neg, r) := parseSign s.toList
  let (m, eTail) := splitExpChar r
  match parseMantissa m with
  | none => none
  | some (n, d) =>
    let sn : ℤ := if neg then -(n : ℤ) else (n : ℤ)
    match eTail with
    | none => some (Rat.divInt sn d)
    | some el =>
      match parseExpPart el with
      | none => none
      | some k =>
        some (if 0 ≤ k then Rat.divInt (sn * 10 ^ k.toNat) d
              else Rat.divInt sn (d * 10 ^ (-k).toNat))

/-! ## Data model and balance evaluator -/

/-- One entry of the exchange account snapshot (`AccountInfo.Balances` element):
the `free` field is the raw decimal string the exchange returns. -/
structure Balance where
  asset : String
  free : String
deriving DecidableEq, Repr

/-- `AccountInfo`: the account snapshot. -/
structure AccountInfo where
  balances : List Balance
deriving DecidableEq, Repr

/-- The fixed quote currency. -/
def BRL : String := "BRL"

/-- `isFiat` (latest revision): membership in the configured fiat set. -/
def isFiat (currency : String) : Bool :=
  ["BRL", "USD", "EUR"].contains currency

/-- One entry of the fiat-balance response (`{asset, amount}`). -/
structure FiatBalance where
  asset : String
  amount : ℚ
deriving DecidableEq, Repr

/-- `getFiatBalances`: keep fiat assets whose `free` parses and is positive. -/
def getFiatBalances (accountInfo : AccountInfo) : List FiatBalance :=
  accountInfo.balances.filterMap (fun b =>
    if isFiat b.asset then
      match parseFloat b.free with
      | some freeAmount =>
        if 0 < freeAmount then some ⟨b.asset, freeAmount⟩ else none
      | none => none
    else none)

/-- `hasSufficientBalance`: the Go loop returns on the first entry whose asset
matches — `err == nil && free >= requiredAmount` of that entry. -/
def hasSufficientBalance (accountInfo : AccountInfo) (asset : String)
    (requiredAmount : ℚ) : Bool :=
  match accountInfo.balances.find? (fun b => b.asset == asset) with
  | some b =>
    match parseFloat b.free with
    | some free => decide (requiredAmount ≤ free)
    | none => false
  | none => false

/-- The BRL balance shown by the chat `saldo` flow: first `BRL` entry whose
`free` parses (the loop `continue`s on parse errors), defaulting to `0`. -/
def brlBalance (accountInfo : AccountInfo) : ℚ :=
  match accountInfo.balances.find?
      (fun b => b.asset == BRL && (parseFloat b.free).isSome) with
  | some b => (parseFloat b.free).getD 0
  | none => 0

/-- `isTradingPairValid`: the source's placeholder accepts every pair. -/
def isTradingPairValid (_pair : String) : Bool := true

/-! ## Command parser (the `switch` of `handleWhatsAppWebhook`)

The webhook handler normalizes the message text and branches, in priority
order: balance inquiry (`saldo` and `reais` both occur), buy (`comprar`
prefix), unrecognized.  `parseCommand` captures the branch taken together with
the buy parameters; the source's two invalid-buy replies (wrong token count /
bad amount) are collapsed into one `invalidBuyFormat` intent, as the spec does.
-/

inductive Intent where
  | queryBalance
  | buy (asset : String) (amount : ℚ)
  | invalidBuyFormat
  | unknownCommand
deriving DecidableEq, Repr

/-- Amount-token normalization of the buy branch: strip the `r$` suffix marker,
then turn a comma decimal separator into a period. -/
def normalizeAmountToken (v : String) : String :=
  goReplaceAll (goReplaceAll v "r$" "") "," "."

/-- The intent the webhook `switch` recognizes for a raw message body. -/
def parseCommand (rawBody : String) : Intent :=
  let body := goToLower (goTrimSpace rawBody)
  if goContainsSub body "saldo" && goContainsSub body "reais" then
    .queryBalance
  else if goStartsWith body "comprar" then
    match goFields body with
    | [_, valueTok, _, assetTok] =>
      match parseFloat (normalizeAmountToken valueTok) with
      | none => .invalidBuyFormat
      | some amount =>
        if amount ≤ 0 then .invalidBuyFormat
        else .buy (goToUpper assetTok) amount
    | _ => .invalidBuyFormat
  else
    .unknownCommand

/-! ## Orchestrator models

Handlers are modelled as pure functions of an `ExchangeEnv` — the outcomes the
two outbound exchange calls would produce during this request (`none` models a
failed call) — returning the HTTP status, the response body and the ordered
trace of external effects performed. -/

/-- Outcomes of the (at most one) snapshot fetch and (at most one) order
submission of a request. -/
structure ExchangeEnv where
  accountResult : Option AccountInfo
  buyResult : Option String
deriving DecidableEq, Repr

/-- The chat replies the webhook flow can send (identified by kind; the
user-facing Portuguese strings carry no extra structure). -/
inductive ReplyKind where
  | balanceFetchError
  | balanceIs (amount : ℚ)
  | noBrlBalance
  | invalidBuy
  | pairNotSupported (crypto : String)
  | buyBalanceError
  | insufficientBalance
  | buyError
  | buySuccess (crypto : String) (amount : ℚ) (orderId : String)
  | unrecognized
deriving DecidableEq, Repr

/-- External effects a handler performs, in order. -/
inductive Event where
  | fetchSnapshot
  | placeOrder (symbol : String) (amount : ℚ)
  | whatsReply (recipient : String) (kind : ReplyKind)
deriving DecidableEq, Repr

/-- Response bodies of the embedded handlers. -/
inductive RespBody where
  | noMessage
  | processed
  | emptyBody
  | jsonError (msg : String)
  | orderDetails (orderId : String)
deriving DecidableEq, Repr

structure HandlerResult where
  status : Nat
  events : List Event
  body : RespBody
deriving DecidableEq, Repr

/-- The actions the webhook `switch` performs for a recognized intent
(`handleWhatsAppWebhook`, latest revision).  Branches that `return` before the
final `c.JSON` leave the (gin-default) 200 with an empty body. -/
def runIntent (env : ExchangeEnv) (fromId : String) (intent : Intent) :
    HandlerResult :=
  match intent with
  | .queryBalance =>
    match env.accountResult with
    | none => ⟨200, [.fetchSnapshot, .whatsReply fromId .balanceFetchError], .emptyBody⟩
    | some accountInfo =>
      let b := brlBalance accountInfo
      if 0 < b then
        ⟨200, [.fetchSnapshot, .whatsReply fromId (.balanceIs b)], .processed⟩
      else
        ⟨200, [.fetchSnapshot, .whatsReply fromId .noBrlBalance], .processed⟩
  | .invalidBuyFormat =>
    ⟨200, [.whatsReply fromId .invalidBuy], .emptyBody⟩
  | .buy crypto amount =>
    if !isTradingPairValid (crypto ++ BRL) then
      ⟨200, [.whatsReply fromId (.pairNotSupported crypto)], .emptyBody⟩
    else
      match env.accountResult with
      | none => ⟨200, [.fetchSnapshot, .whatsReply fromId .buyBalanceError], .emptyBody⟩
      | some accountInfo =>
        if !hasSufficientBalance accountInfo BRL amount then
          ⟨200, [.fetchSnapshot, .whatsReply fromId .insufficientBalance], .emptyBody⟩
        else
          match env.buyResult with
          | none =>
            ⟨200, [.fetchSnapshot, .placeOrder (crypto ++ BRL) amount,
                   .whatsReply fromId .buyError], .emptyBody⟩
          | some orderId =>
            ⟨200, [.fetchSnapshot, .placeOrder (crypto ++ BRL) amount,
                   .whatsReply fromId (.buySuccess crypto amount orderId)], .processed⟩
  | .unknownCommand =>
    ⟨200, [.whatsReply fromId .unrecognized], .processed⟩

/-! WhatsApp webhook payload shape (`entry[].changes[].value.messages[]`). -/

structure WhatsMessage where
  fromId : String
  textBody : String
deriving DecidableEq, Repr

structure WhatsValue where
  messages : List WhatsMessage
deriving DecidableEq, Repr

structure WhatsChange where
  value : WhatsValue
deriving DecidableEq, Repr

structure WhatsEntry where
  changes : List WhatsChange
deriving DecidableEq, Repr

structure WebhookReq where
  entry : List WhatsEntry
deriving DecidableEq, Repr

/-- The short-circuit emptiness test
`len(Entry)==0 || len(Entry[0].Changes)==0 || len(...Messages)==0`, returning
`Entry[0].Changes[0].Value.Messages[0]` when it fails. -/
def firstMessage (req : WebhookReq) : Option WhatsMessage :=
  match req.entry with
  | [] => none
  | e :: _ =>
    match e.changes with
    | [] => none
    | ch :: _ =>
      match ch.value.messages with
      | [] => none
      | m :: _ => some m

/-- `handleWhatsAppWebhook` (latest revision), after a successful JSON bind:
empty payload short-circuits to 200 `Nenhuma mensagem recebida` with no
external effect; otherwise the first message is dispatched. -/
def handleWhatsAppWebhook (env : ExchangeEnv) (req : WebhookReq) :
    HandlerResult :=
  match firstMessage req with
  | none => ⟨200, [], .noMessage⟩
  | some m => runIntent env m.fromId (parseCommand m.textBody)

/-- Body of `POST /binance/comprar` (`{crypto, amount}`); `none` models a
failed `ShouldBindJSON`. -/
structure BuyRequest where
  crypto : String
  amount : ℚ
deriving DecidableEq, Repr

/-- `handleBuyCrypto` (latest revision): validate → pair check → fetch →
sufficiency on the fetched snapshot → submit. -/
def handleBuyCrypto (env : ExchangeEnv) (req : Option BuyRequest) :
    HandlerResult :=
  match req with
  | none => ⟨400, [], .jsonError "Parâmetros inválidos"⟩
  | some r =>
    if r.amount ≤ 0 then
      ⟨400, [], .jsonError "O valor para compra deve ser maior que zero"⟩
    else
      let symbol := r.crypto ++ BRL
      if !isTradingPairValid symbol then
        ⟨400, [], .jsonError "Par de moedas não suportado"⟩
      else
        match env.accountResult with
        | none => ⟨500, [.fetchSnapshot], .jsonError "Erro ao consultar saldo"⟩
        | some accountInfo =>
          if !hasSufficientBalance accountInfo BRL r.amount then
            ⟨400, [.fetchSnapshot],
              .jsonError "Saldo insuficiente para realizar a compra"⟩
          else
            match env.buyResult with
            | none =>
              ⟨500, [.fetchSnapshot, .placeOrder symbol r.amount],
                .jsonError "Erro ao realizar a compra"⟩
            | some orderId =>
              ⟨200, [.fetchSnapshot, .placeOrder symbol r.amount],
                .orderDetails orderId⟩

/-- The first revision's `POST /comprar` closure in `main`: bind → positive
amount → submit, with no pair validation and no balance check. -/
def handleBuyV1 (env : ExchangeEnv) (req : Option BuyRequest) : HandlerResult :=
  match req with
  | none => ⟨400, [], .jsonError "Parâmetros inválidos"⟩
  | some r =>
    if r.amount ≤ 0 then
      ⟨400, [], .jsonError "O valor para compra deve ser maior que zero"⟩
    else
      match env.buyResult with
      | none =>
        ⟨500, [.placeOrder (r.crypto ++ BRL) r.amount],
          .jsonError "Erro ao realizar a compra"⟩
      | some orderId =>
        ⟨200, [.placeOrder (r.crypto ++ BRL) r.amount], .orderDetails orderId⟩

/-- `verifyWebhook` (`GET /whatsapp/webhook`): parameters are the configured
token and the `hub.mode`, `hub.challenge`, `hub.verify_token` query values;
result is `(status, body)`. -/
def verifyWebhook (whatsappToken mode challenge verifyToken : String) :
    Nat × String :=
  if mode == "subscribe" && verifyToken == whatsappToken then
    (200, challenge)
  else
    (403, "Forbidden")

/-! ## Notifier (`replyWhatsApp`)

The messaging call's outcome is the input: `some resp` models a delivered
round trip, `none` models `client.Do` returning a transport error with a nil
response.  The Go code logs the error but then unconditionally evaluates
`responseZap.Status` before its nil check, so the `none` case is a nil-pointer
dereference (a runtime panic), modelled as `Except.error`. -/

structure WhatsResponse where
  status : String
  body : String
deriving DecidableEq, Repr

inductive GoPanic where
  | nilDereference
deriving DecidableEq, Repr

/-- `replyWhatsApp` after `client.Do`: on a transport failure the handler does
not complete — it panics reading `.Status` of the nil response. -/
def replyWhatsApp (transport : Option WhatsResponse) : Except GoPanic Unit :=
  match transport with
  | none => .error .nilDereference
  | some _ => .ok ()

/-! ## SHA-256 and HMAC (crypto/sha256, crypto/hmac)

Bytes are `Nat`s below 256, 32-bit words are `Nat`s reduced modulo `2 ^ 32`
explicitly. -/

/-- Truncate to a 32-bit word. -/
def w32 (n : Nat) : Nat := n % 4294967296

/-- Right rotation of a 32-bit word. -/
def rotr32 (x n : Nat) : Nat := w32 (x / 2 ^ n + x % 2 ^ n * 2 ^ (32 - n))

/-- Logical right shift. -/
def shr32 (x n : Nat) : Nat := x / 2 ^ n

def bSig0 (x : Nat) : Nat := rotr32 x 2 ^^^ rotr32 x 13 ^^^ rotr32 x 22
def bSig1 (x : Nat) : Nat := rotr32 x 6 ^^^ rotr32 x 11 ^^^ rotr32 x 25
def sSig0 (x : Nat) : Nat := rotr32 x 7 ^^^ rotr32 x 18 ^^^ shr32 x 3
def sSig1 (x : Nat) : Nat := rotr32 x 17 ^^^ rotr32 x 19 ^^^ shr32 x 10

/-- `Ch(x,y,z)`; `NOT x` on 32 bits is `x XOR 0xFFFFFFFF`. -/
def chFn (x y z : Nat) : Nat := (x &&& y) ^^^ ((x ^^^ 4294967295) &&& z)

def majFn (x y z : Nat) : Nat := (x &&& y) ^^^ (x &&& z) ^^^ (y &&& z)

/-- The 64 SHA-256 round constants. -/
def sha256K : List Nat :=
  [1116352408, 1899447441, 3049323471, 3921009573, 961987163, 1508970993,
   2453635748, 2870763221, 3624381080, 310598401, 607225278, 1426881987,
   1925078388, 2162078206, 2614888103, 3248222580, 3835390401, 4022224774,
   264347078, 604807628, 770255983, 1249150122, 1555081692, 1996064986,
   2554220882, 2821834349, 2952996808, 3210313671, 3336571891, 3584528711,
   113926993, 338241895, 666307205, 773529912, 1294757372, 1396182291,
   1695183700, 1986661051, 2177026350, 2456956037, 2730485921, 2820302411,
   3259730800, 3345764771, 3516065817, 3600352804, 4094571909, 275423344,
   430227734, 506948616, 659060556, 883997877, 958139571, 1322822218,
   1537002063, 1747873779, 1955562222, 2024104815, 2227730452, 2361852424,
   2428436474, 2756734187, 3204031479, 3329325298]

structure Sha256State where
  a : Nat
  b : Nat
  c : Nat
  d : Nat
  e : Nat
  f : Nat
  g : Nat
  h : Nat
deriving DecidableEq, Repr

def sha256Init : Sha256State :=
  ⟨1779033703, 3144134277, 1013904242, 2773480762,
   1359893119, 2600822924, 528734635, 1541459225⟩

/-- One compression round for round constant and scheduled word `kw`. -/
def sha256Round (st : Sha256State) (kw : Nat × Nat) : Sha256State :=
  let t1 := w32 (st.h + bSig1 st.e + chFn st.e st.f st.g + kw.1 + kw.2)
  let t2 := w32 (bSig0 st.a + majFn st.a st.b st.c)
  ⟨w32 (t1 + t2), st.a, st.b, st.c, w32 (st.d + t1), st.e, st.f, st.g⟩

/-- Extend the 16 block words to the 64-entry message schedule. -/
def extendSchedule : Nat → List Nat → List Nat
  | 0, ws => ws
  | n + 1, ws =>
    let t := ws.length
    let w := w32 (sSig1 (ws.getD (t - 2) 0) + ws.getD (t - 7) 0 +
                  sSig0 (ws.getD (t - 15) 0) + ws.getD (t - 16) 0)
    extendSchedule n (ws ++ [w])

/-- Compress one 16-word block into the running hash value. -/
def sha256Compress (hv : Sha256State) (block : List Nat) : Sha256State :=
  let ws := extendSchedule 48 block
  let st := (sha256K.zip ws).foldl sha256Round hv
  ⟨w32 (hv.a + st.a), w32 (hv.b + st.b), w32 (hv.c + st.c), w32 (hv.d + st.d),
   w32 (hv.e + st.e), w32 (hv.f + st.f), w32 (hv.g + st.g), w32 (hv.h + st.h)⟩

/-- Big-endian bytes to 32-bit words (length a multiple of 4). -/
def bytesToWords : List Nat → List Nat
  | b0 :: b1 :: b2 :: b3 :: rest =>
    (((b0 * 256 + b1) * 256 + b2) * 256 + b3) :: bytesToWords rest
  | _ => []

/-- Merkle–Damgård padding: `0x80`, zeros to 56 mod 64, 8-byte big-endian bit
length. -/
def sha256Pad (msg : List Nat) : List Nat :=
  let len := msg.length
  let zeros := (119 - len % 64) % 64
  let bitLen := 8 * len
  msg ++ 128 :: List.replicate zeros 0 ++
    [bitLen / 2 ^ 56 % 256, bitLen / 2 ^ 48 % 256, bitLen / 2 ^ 40 % 256,
     bitLen / 2 ^ 32 % 256, bitLen / 2 ^ 24 % 256, bitLen / 2 ^ 16 % 256,
     bitLen / 2 ^ 8 % 256, bitLen % 256]

/-- Fuelled split into 16-word blocks. -/
def chunk16 : Nat → List Nat → List (List Nat)
  | 0, _ => []
  | _ + 1, [] => []
  | fuel + 1, w :: ws => (w :: ws).take 16 :: chunk16 fuel ((w :: ws).drop 16)

/-- Big-endian serialization of one 32-bit word. -/
def word4 (w : Nat) : List Nat :=
  [w / 2 ^ 24 % 256, w / 2 ^ 16 % 256, w / 2 ^ 8 % 256, w % 256]

/-- SHA-256 of a byte sequence, as 32 bytes. -/
def sha256 (msg : List Nat) : List Nat :=
  let words := bytesToWords (sha256Pad msg)
  let hv := (chunk16 words.length words).foldl sha256Compress sha256Init
  word4 hv.a ++ word4 hv.b ++ word4 hv.c ++ word4 hv.d ++
  word4 hv.e ++ word4 hv.f ++ word4 hv.g ++ word4 hv.h

/-- HMAC-SHA-256 (`crypto/hmac` with `sha256.New`): block size 64. -/
def hmacSha256 (key msg : List Nat) : List Nat :=
  let k0 := if 64 < key.length then sha256 key else key
  let kp := k0 ++ List.replicate (64 - k0.length) 0
  sha256 (kp.map (fun b => b ^^^ 92) ++ sha256 (kp.map (fun b => b ^^^ 54) ++ msg))

/-- Decimal digit character. -/
def digitChar (d : Nat) : Char := Char.ofNat (48 + d)

/-- Lowercase hex digit (`encoding/hex`). -/
def hexDigitLower (d : Nat) : Char :=
  if d < 10 then digitChar d else Char.ofNat (87 + d)

/-- `hex.EncodeToString`. -/
def hexOfBytes (l : List Nat) : List Char :=
  (l.map (fun b => [hexDigitLower (b / 16), hexDigitLower (b % 16)])).flatten

/-- UTF-8 bytes of a string (ASCII fragment: one byte per character; the
source's keys, queries and bodies are ASCII). -/
def strBytes (s : String) : List Nat := s.toList.map Char.toNat

/-- `createSignature`: lowercase-hex HMAC-SHA-256 of `data` under `secretKey`. -/
def createSignature (secretKey data : String) : String :=
  String.mk (hexOfBytes (hmacSha256 (strBytes secretKey) (strBytes data)))

/-! ## url.Values.Encode and the market-buy order body

`url.Values.Encode` percent-encodes each key and value with `QueryEscape` and
joins `k=v` pairs with `&`, iterating keys in sorted order.  `fmt.Sprintf`'s
`%.2f` is modelled over `ℚ` (ties round half-up; the claims exercise no tie). -/

/-- Characters `QueryEscape` leaves unescaped. -/
def isUnreservedQuery (c : Char) : Bool :=
  c.isAlphanum || c = '-' || c = '_' || c = '.' || c = '~'

/-- Uppercase hex digit (percent-encoding uses uppercase). -/
def hexDigitUpper (d : Nat) : Char :=
  if d < 10 then digitChar d else Char.ofNat (55 + d)

/-- `url.QueryEscape` of one character (byte-level for the single-byte
characters the source produces): unreserved kept, space to `+`, else `%XX`. -/
def escapeChar (c : Char) : List Char :=
  if isUnreservedQuery c then [c]
  else if c = ' ' then ['+']
  else
    let b := c.toNat % 256
    ['%', hexDigitUpper (b / 16), hexDigitUpper (b % 16)]

/-- `url.QueryEscape`. -/
def queryEscapeL (l : List Char) : List Char := (l.map escapeChar).flatten

/-- Byte-order comparison of keys (`sort.Strings` ordering; ASCII keys). -/
def charsLe : List Char → List Char → Bool
  | [], _ => true
  | _ :: _, [] => false
  | a :: as, b :: bs => if a = b then charsLe as bs else decide (a < b)

/-- Insertion step of sorting the key/value pairs by key. -/
def insertByKey (p : List Char × List Char) :
    List (List Char × List Char) → List (List Char × List Char)
  | [] => [p]
  | q :: qs => if charsLe p.1 q.1 then p :: q :: qs else q :: insertByKey p qs

/-- Sort key/value pairs by key (the iteration order of `Values.Encode`). -/
def sortByKey (l : List (List Char × List Char)) :
    List (List Char × List Char) :=
  l.foldr insertByKey []

/-- Join encoded `k=v` chunks with `&` separators. -/
def joinAmp : List (List Char) → List Char
  | [] => []
  | [x] => x
  | x :: y :: rest => x ++ '&' :: joinAmp (y :: rest)

/-- `url.Values.Encode`. -/
def valuesEncode (l : List (List Char × List Char)) : List Char :=
  joinAmp ((sortByKey l).map (fun p => queryEscapeL p.1 ++ '=' :: queryEscapeL p.2))

/-- Decimal digits of a natural number (fuelled; no leading zeros). -/
def natReprAux : Nat → Nat → List Char
  | 0, _ => []
  | fuel + 1, n =>
    if n < 10 then [digitChar n] else natReprAux fuel (n / 10) ++ [digitChar (n % 10)]

/-- Decimal rendering of a natural number. -/
def natRepr (n : Nat) : List Char := natReprAux (n + 1) n

/-- `fmt.Sprintf("%.2f", x)` over the `ℚ` model: sign, integer digits, `.`,
exactly two fraction digits. -/
def formatF2 (q : ℚ) : List Char :=
  let n : Nat := (round (|q| * 100)).toNat
  (if q < 0 then ['-'] else []) ++
    natRepr (n / 100) ++ '.' :: [digitChar (n % 100 / 10), digitChar (n % 10)]

/-- The five form fields `buyCrypto` sets before signing. -/
def buyOrderValues (symbol : String) (fiatAmount : ℚ) (timestamp : String) :
    List (List Char × List Char) :=
  [("symbol".toList, symbol.toList),
   ("side".toList, "BUY".toList),
   ("type".toList, "MARKET".toList),
   ("quoteOrderQty".toList, formatF2 fiatAmount),
   ("timestamp".toList, timestamp.toList)]

/-- `data.Encode()` at signing time — the canonical string the HMAC covers. -/
def buySignedString (symbol : String) (fiatAmount : ℚ) (timestamp : String) :
    List Char :=
  valuesEncode (buyOrderValues symbol fiatAmount timestamp)

/-- The signature value `buyCrypto` adds to the form. -/
def buySignature (secretKey symbol : String) (fiatAmount : ℚ)
    (timestamp : String) : String :=
  createSignature secretKey (String.mk (buySignedString symbol fiatAmount timestamp))

/-- `data.Encode()` after `data.Set("signature", ...)` — the transmitted body. -/
def buyRequestBody (secretKey symbol : String) (fiatAmount : ℚ)
    (timestamp : String) : List Char :=
  valuesEncode (buyOrderValues symbol fiatAmount timestamp ++
    [("signature".toList, (buySignature secretKey symbol fiatAmount timestamp).toList)])

/-- Split at `&` separators (`strings.Split(s, "&")` semantics). -/
def splitAmp : List Char → List (List Char)
  | [] => [[]]
  | c :: cs =>
    if c = '&' then [] :: splitAmp cs
    else
      match splitAmp cs with
      | [] => [[c]]
      | g :: gs => (c :: g) :: gs

/-- Drop the `signature=...` field from an encoded form body. -/
def stripSignatureField (body : List Char) : List Char :=
  joinAmp ((splitAmp body).filter (fun chunk => !startsWithL chunk ("signature=".toList)))

/-! # Theorems -/

/-- C8: the claim states notifier delivery failures are logged and never
escalated — but the source reads `responseZap.Status` before its nil check, so
a transport failure (nil response) is a nil-pointer panic aborting the
handler, while a delivered response completes normally.  This evaluates the
embedded code at the failing input. -/
theorem C8_replyWhatsApp_crashes_on_transport_failure :
    replyWhatsApp none = Except.error GoPanic.nilDereference ∧
    ∀ r : WhatsResponse, replyWhatsApp (some r) = Except.ok () :=
  ⟨rfl, fun _ => rfl⟩

/-- C9: a well-formed webhook payload whose entry list, first entry's changes
list, or first change's messages list is empty yields HTTP 200 with the
`Nenhuma mensagem recebida` status, no chat reply and no exchange call. -/
theorem C9_webhook_empty_payload_no_effects :
    (∀ env : ExchangeEnv,
      handleWhatsAppWebhook env ⟨[]⟩ = ⟨200, [], .noMessage⟩) ∧
    (∀ (env : ExchangeEnv) (entryTail : List WhatsEntry),
      handleWhatsAppWebhook env ⟨⟨[]⟩ :: entryTail⟩ = ⟨200, [], .noMessage⟩) ∧
    (∀ (env : ExchangeEnv) (changeTail : List WhatsChange)
        (entryTail : List WhatsEntry),
      handleWhatsAppWebhook env ⟨⟨⟨⟨[]⟩⟩ :: changeTail⟩ :: entryTail⟩ =
        ⟨200, [], .noMessage⟩) :=
  ⟨fun _ => rfl, fun _ _ => rfl, fun _ _ _ => rfl⟩

/-- C5 counterexample: with a matching verify token but `hub.mode` not equal to
`subscribe`, the source answers 403, while the claim requires 200 with the
challenge body whenever the token matches. -/
theorem C5_verifyWebhook_counterexample :
    verifyWebhook "token123" "" "challenge456" "token123" = (403, "Forbidden") ∧
    verifyWebhook "token123" "" "challenge456" "token123" ≠ (200, "challenge456") := by
  constructor
  · decide
  · decide

/-- C5 amended: the response is 200 with body exactly the challenge iff
`hub.mode` equals `subscribe` **and** the verify token matches; otherwise 403
`Forbidden`. -/
theorem C5_verifyWebhook_amended :
    ∀ whatsappToken mode challenge verifyToken : String,
      (mode = "subscribe" ∧ verifyToken = whatsappToken →
        verifyWebhook whatsappToken mode challenge verifyToken = (200, challenge)) ∧
      (¬(mode = "subscribe" ∧ verifyToken = whatsappToken) →
        verifyWebhook whatsappToken mode challenge verifyToken = (403, "Forbidden")) := by
  intro tok mode ch vt
  constructor
  · rintro ⟨h1, h2⟩
    subst h1; subst h2
    simp [verifyWebhook]
  · intro h
    unfold verifyWebhook
    rw [if_neg]
    intro hb
    simp only [Bool.and_eq_true, beq_iff_eq] at hb
    exact h hb

/-- C5 witness: the amended theorem at concrete inputs on both sides. -/
theorem C5_verifyWebhook_amended_witness :
    verifyWebhook "tok" "subscribe" "ch" "tok" = (200, "ch") ∧
    verifyWebhook "tok" "bad" "ch" "tok" = (403, "Forbidden") :=
  ⟨(C5_verifyWebhook_amended "tok" "subscribe" "ch" "tok").1 ⟨rfl, rfl⟩,
   (C5_verifyWebhook_amended "tok" "bad" "ch" "tok").2 (by decide)⟩

/-- C6: every entry the fiat-balance filter returns has a strictly positive
amount and an asset in the configured fiat set. -/
theorem C6_getFiatBalances_fiat_positive :
    ∀ accountInfo : AccountInfo, ∀ e ∈ getFiatBalances accountInfo,
      0 < e.amount ∧ e.asset ∈ ["BRL", "USD", "EUR"] := by
  intro info e he
  simp only [getFiatBalances, List.mem_filterMap] at he
  obtain ⟨b, _, hb⟩ := he
  by_cases hf : isFiat b.asset = true
  · rw [if_pos hf] at hb
    cases hq : parseFloat b.free with
    | none => rw [hq] at hb; exact absurd hb (by simp)
    | some q =>
      rw [hq] at hb
      dsimp only at hb
      by_cases hpos : 0 < q
      · rw [if_pos hpos] at hb
        obtain rfl := Option.some.inj hb
        exact ⟨hpos, by simpa [isFiat] using hf⟩
      · rw [if_neg hpos] at hb
        exact absurd hb (by simp)
  · rw [if_neg hf] at hb
    exact absurd hb (by simp)

/-- C6 witness: the theorem applied to the entry produced from a concrete
snapshot with a positive BRL balance. -/
theorem C6_getFiatBalances_fiat_positive_witness :
    0 < (FiatBalance.mk "BRL" 10).amount ∧
    (FiatBalance.mk "BRL" 10).asset ∈ ["BRL", "USD", "EUR"] :=
  C6_getFiatBalances_fiat_positive ⟨[⟨"BRL", "10"⟩]⟩ ⟨"BRL", 10⟩ (by decide)

/-- First-match characterization of `hasSufficientBalance` over the raw entry
list: true exactly when the first entry whose asset matches exists, its `free`
parses, and the parsed amount covers the requirement. -/
theorem hasSufficientBalance_first_match :
    ∀ (l : List Balance) (asset : String) (x : ℚ),
      hasSufficientBalance ⟨l⟩ asset x = true ↔
        ∃ pre b post, l = pre ++ b :: post ∧
          (∀ c ∈ pre, c.asset ≠ asset) ∧ b.asset = asset ∧
          ∃ q, parseFloat b.free = some q ∧ x ≤ q := by
  intro l asset x
  induction l with
  | nil =>
    constructor
    · intro h
      exact absurd h (by simp [hasSufficientBalance])
    · rintro ⟨pre, b, post, heq, -⟩
      exact absurd heq.symm (by simp)
  | cons hd tl ih =>
    by_cases hhd : hd.asset = asset
    · have hfind : (hd :: tl).find? (fun b => b.asset == asset) = some hd := by
        simp [List.find?_cons_of_pos, hhd]
      constructor
      · intro h
        simp only [hasSufficientBalance] at h
        rw [hfind] at h
        dsimp only at h
        cases hq : parseFloat hd.free with
        | none => rw [hq] at h; exact absurd h (by simp)
        | some q =>
          rw [hq] at h
          exact ⟨[], hd, tl, rfl, by simp, hhd, q, hq, of_decide_eq_true h⟩
      · rintro ⟨pre, b, post, heq, hpre, hb, q, hq, hle⟩
        cases pre with
        | nil =>
          obtain ⟨rfl, rfl⟩ : hd = b ∧ tl = post := by
            simpa using heq
          simp only [hasSufficientBalance]
          rw [hfind]
          dsimp only
          rw [hq]
          exact decide_eq_true hle
        | cons p pre' =>
          obtain ⟨rfl, -⟩ : hd = p ∧ tl = pre' ++ b :: post := by
            simpa using heq
          exact absurd hhd (hpre hd (by simp))
    · have hstep : hasSufficientBalance ⟨hd :: tl⟩ asset x =
          hasSufficientBalance ⟨tl⟩ asset x := by
        simp only [hasSufficientBalance]
        rw [List.find?_cons_of_neg _ (by simpa using hhd)]
      rw [hstep, ih]
      constructor
      · rintro ⟨pre, b, post, heq, hpre, hb, hrest⟩
        refine ⟨hd :: pre, b, post, by simp [heq], ?_, hb, hrest⟩
        intro c hc
        rcases List.mem_cons.1 hc with rfl | hc
        · exact hhd
        · exact hpre c hc
      · rintro ⟨pre, b, post, heq, hpre, hb, hrest⟩
        cases pre with
        | nil =>
          obtain ⟨rfl, -⟩ : hd = b ∧ tl = post := by simpa using heq
          exact absurd hb hhd
        | cons p pre' =>
          obtain ⟨rfl, htl⟩ : hd = p ∧ tl = pre' ++ b :: post := by
            simpa using heq
          exact ⟨pre', b, post, htl, fun c hc => hpre c (by simp [hc]), hb, hrest⟩

/-- C2 counterexample: in a snapshot with two `BRL` entries, the second entry
has a free amount covering the requirement (so the claim's "some entry" reads
true), yet `hasSufficientBalance` returns false — the loop returns on the
first matching entry. -/
theorem C2_hasSufficientBalance_counterexample :
    ((Balance.mk "BRL" "100") ∈ ([⟨"BRL", "1"⟩, ⟨"BRL", "100"⟩] : List Balance) ∧
     (Balance.mk "BRL" "100").asset = "BRL" ∧
     parseFloat (Balance.mk "BRL" "100").free = some 100 ∧ (50 : ℚ) ≤ 100) ∧
    hasSufficientBalance ⟨[⟨"BRL", "1"⟩, ⟨"BRL", "100"⟩]⟩ "BRL" 50 = false := by
  exact ⟨⟨by decide, rfl, by decide, by decide⟩, by decide⟩

/-- C2 amended: `hasSufficientBalance S a x` is true iff the **first** entry of
`S` whose asset equals `a` exists, its free field parses as a number `q`, and
`q ≥ x` (inclusive); it is false when no entry for `a` exists — in particular
on the empty snapshot — with absence treated as zero balance, not an error. -/
theorem C2_hasSufficientBalance_amended :
    ∀ (accountInfo : AccountInfo) (asset : String) (x : ℚ),
      (hasSufficientBalance accountInfo asset x = true ↔
        ∃ pre b post, accountInfo.balances = pre ++ b :: post ∧
          (∀ c ∈ pre, c.asset ≠ asset) ∧ b.asset = asset ∧
          ∃ q, parseFloat b.free = some q ∧ x ≤ q) ∧
      hasSufficientBalance ⟨[]⟩ asset x = false :=
  fun accountInfo asset x =>
    ⟨hasSufficientBalance_first_match accountInfo.balances asset x, rfl⟩

/-- C3 counterexample: `comprar saldo em reais` starts with the buy keyword,
has exactly 4 tokens and an unparseable amount token, so the claim maps it to
the invalid-buy-format reply — but the balance-inquiry branch has priority in
the source's `switch` (the text contains both `saldo` and `reais`), so the
parser answers the balance inquiry instead. -/
theorem C3_parser_counterexample :
    goStartsWith (goToLower (goTrimSpace "comprar saldo em reais")) "comprar" = true ∧
    goFields (goToLower (goTrimSpace "comprar saldo em reais")) =
      ["comprar", "saldo", "em", "reais"] ∧
    parseFloat (normalizeAmountToken "saldo") = none ∧
    parseCommand "comprar saldo em reais" = .queryBalance ∧
    parseCommand "comprar saldo em reais" ≠ .invalidBuyFormat :=
  ⟨by decide, by decide, by decide, by decide, by decide⟩

/-- C3 amended: the five example mappings hold as claimed, and every `comprar`
message **that does not also contain both balance keywords** (balance inquiry
has priority) with a token count other than 4, or whose amount token fails to
parse or parses non-positive, maps to the invalid-buy-format reply. -/
theorem C3_parser_mappings_amended :
    parseCommand "saldo em reais" = .queryBalance ∧
    parseCommand "comprar 100r$ em btc" = .buy "BTC" 100 ∧
    parseCommand "comprar 100,50 em eth" = .buy "ETH" (201 / 2 : ℚ) ∧
    parseCommand "comprar abc em btc" = .invalidBuyFormat ∧
    parseCommand "oi" = .unknownCommand ∧
    (∀ raw : String,
      goStartsWith (goToLower (goTrimSpace raw)) "comprar" = true →
      ¬(goContainsSub (goToLower (goTrimSpace raw)) "saldo" = true ∧
        goContainsSub (goToLower (goTrimSpace raw)) "reais" = true) →
      ((goFields (goToLower (goTrimSpace raw))).length ≠ 4 ∨
        (∃ t0 v t2 t3, goFields (goToLower (goTrimSpace raw)) = [t0, v, t2, t3] ∧
          (parseFloat (normalizeAmountToken v) = none ∨
            ∃ q, parseFloat (normalizeAmountToken v) = some q ∧ q ≤ 0))) →
      parseCommand raw = .invalidBuyFormat) := by
  refine ⟨by decide, by decide, ?_, by decide, by decide, ?_⟩
  · rw [show (201 / 2 : ℚ) = Rat.divInt 201 2 by rw [Rat.divInt_eq_div]; norm_num]
    decide
  intro raw h1 h2 h3
  have hff : (goContainsSub (goToLower (goTrimSpace raw)) "saldo" &&
      goContainsSub (goToLower (goTrimSpace raw)) "reais") = false := by
    cases hA : goContainsSub (goToLower (goTrimSpace raw)) "saldo" <;>
      cases hB : goContainsSub (goToLower (goTrimSpace raw)) "reais" <;>
      simp_all
  simp only [parseCommand]
  rw [if_neg (by simp [hff]), if_pos h1]
  rcases h3 with hlen | ⟨t0, v, t2, t3, hf, hbad⟩
  · rcases gf : goFields (goToLower (goTrimSpace raw)) with
      _ | ⟨t0, _ | ⟨v, _ | ⟨t2, _ | ⟨t3, _ | ⟨t4, rest⟩⟩⟩⟩⟩
    · rfl
    · rfl
    · rfl
    · rfl
    · exact absurd (by rw [gf]; rfl) hlen
    · rfl
  · rw [hf]
    dsimp only
    rcases hbad with hnone | ⟨q, hq, hle⟩
    · rw [hnone]
    · rw [hq]
      simp only [if_pos hle]

/-- C3 witness: the amended universal clause applied to a concrete 4-token buy
message with a negative amount. -/
theorem C3_parser_mappings_amended_witness :
    parseCommand "comprar -5 em btc" = .invalidBuyFormat :=
  C3_parser_mappings_amended.2.2.2.2.2 "comprar -5 em btc" (by decide) (by decide)
    (Or.inr ⟨"comprar", "-5", "em", "btc", by decide,
      Or.inr ⟨-5, by decide, by decide⟩⟩)

/-- C10 counterexample: `comprar 100 reais saldo` starts with the buy keyword,
splits into exactly 4 tokens with a parseable positive amount, yet the buy
flow does not proceed — the message contains both balance keywords, so the
balance-inquiry branch wins. -/
theorem C10_parser_counterexample :
    goStartsWith (goToLower (goTrimSpace "comprar 100 reais saldo")) "comprar" = true ∧
    goFields (goToLower (goTrimSpace "comprar 100 reais saldo")) =
      ["comprar", "100", "reais", "saldo"] ∧
    parseFloat (normalizeAmountToken "100") = some 100 ∧ (0 : ℚ) < 100 ∧
    parseCommand "comprar 100 reais saldo" = .queryBalance ∧
    parseCommand "comprar 100 reais saldo" ≠ .buy (goToUpper "saldo") 100 :=
  ⟨by decide, by decide, by decide, by decide, by decide, by decide⟩

/-- C10 amended: for every message starting with the buy keyword that does not
also contain both balance keywords, splitting into exactly 4 tokens with a
parseable positive amount, the buy intent uses the uppercased fourth token as
the asset — the third (preposition) token is never inspected. -/
theorem C10_parser_third_token_ignored :
    ∀ (raw t0 v t2 t3 : String) (q : ℚ),
      goStartsWith (goToLower (goTrimSpace raw)) "comprar" = true →
      ¬(goContainsSub (goToLower (goTrimSpace raw)) "saldo" = true ∧
        goContainsSub (goToLower (goTrimSpace raw)) "reais" = true) →
      goFields (goToLower (goTrimSpace raw)) = [t0, v, t2, t3] →
      parseFloat (normalizeAmountToken v) = some q →
      0 < q →
      parseCommand raw = .buy (goToUpper t3) q := by
  intro raw t0 v t2 t3 q h1 h2 hf hq hpos
  have hff : (goContainsSub (goToLower (goTrimSpace raw)) "saldo" &&
      goContainsSub (goToLower (goTrimSpace raw)) "reais") = false := by
    cases hA : goContainsSub (goToLower (goTrimSpace raw)) "saldo" <;>
      cases hB : goContainsSub (goToLower (goTrimSpace raw)) "reais" <;>
      simp_all
  simp only [parseCommand]
  rw [if_neg (by simp [hff]), if_pos h1, hf]
  dsimp only
  rw [hq]
  simp only [if_neg (not_le.2 hpos)]

/-- C10 witness: a buy message whose third token is `para`, not `em`, still
proceeds with the uppercased fourth token. -/
theorem C10_parser_third_token_ignored_witness :
    parseCommand "comprar 5 para btc" = .buy "BTC" 5 :=
  C10_parser_third_token_ignored "comprar 5 para btc" "comprar" "5" "para" "btc" 5
    (by decide) (by decide) (by decide) (by decide) (by decide)

/-- Every order the webhook intent dispatch places happens immediately after
the request's single snapshot fetch, with the pair validated and sufficiency
confirmed by `hasSufficientBalance` on the very snapshot that fetch returned
(no second fetch occurs in the trace). -/
theorem runIntent_placeOrder_invariant :
    ∀ (env : ExchangeEnv) (fromId : String) (intent : Intent)
      (symbol : String) (amount : ℚ),
      Event.placeOrder symbol amount ∈ (runIntent env fromId intent).events →
      isTradingPairValid symbol = true ∧
      ∃ accountInfo tail,
        env.accountResult = some accountInfo ∧
        hasSufficientBalance accountInfo BRL amount = true ∧
        (runIntent env fromId intent).events =
          Event.fetchSnapshot :: Event.placeOrder symbol amount :: tail ∧
        Event.fetchSnapshot ∉ tail := by
  intro env fromId intent symbol amount hmem
  match intent with
  | .queryBalance =>
    cases hacc : env.accountResult with
    | none => simp [runIntent, hacc] at hmem
    | some info =>
      by_cases hb : 0 < brlBalance info <;> simp [runIntent, hacc, hb] at hmem
  | .invalidBuyFormat => simp [runIntent] at hmem
  | .unknownCommand => simp [runIntent] at hmem
  | .buy crypto amt =>
    cases hacc : env.accountResult with
    | none => simp [runIntent, isTradingPairValid, hacc] at hmem
    | some info =>
      by_cases hs : hasSufficientBalance info BRL amt = true
      · cases hbuy : env.buyResult with
        | none =>
          simp [runIntent, isTradingPairValid, hacc, hs, hbuy] at hmem
          obtain ⟨rfl, rfl⟩ := hmem
          exact ⟨rfl, info, [.whatsReply fromId .buyError], rfl, hs,
            by simp [runIntent, isTradingPairValid, hacc, hs, hbuy], by simp⟩
        | some orderId =>
          simp [runIntent, isTradingPairValid, hacc, hs, hbuy] at hmem
          obtain ⟨rfl, rfl⟩ := hmem
          exact ⟨rfl, info,
            [.whatsReply fromId (.buySuccess crypto amount orderId)], rfl, hs,
            by simp [runIntent, isTradingPairValid, hacc, hs, hbuy], by simp⟩
      · simp [runIntent, isTradingPairValid, hacc, hs] at hmem

/-- C1 counterexample: the first revision's structured `/comprar` endpoint
submits a market buy with no snapshot fetch and no sufficiency check at all —
here against an account whose snapshot is empty, so the balance evaluator
would reject the purchase. -/
theorem C1_buyV1_counterexample :
    (handleBuyV1 ⟨some ⟨[]⟩, some "1"⟩ (some ⟨"BTC", 100⟩)).events =
      [Event.placeOrder "BTCBRL" 100] ∧
    Event.fetchSnapshot ∉ (handleBuyV1 ⟨some ⟨[]⟩, some "1"⟩ (some ⟨"BTC", 100⟩)).events ∧
    hasSufficientBalance ⟨[]⟩ BRL 100 = false :=
  ⟨by decide, by decide, by decide⟩

/-- C1 amended: in the latest revision's buy flows — the structured
`handleBuyCrypto` endpoint and the webhook chat command — an order submission
event occurs only with the trading pair validated and `hasSufficientBalance`
true of the snapshot returned by the request's single fetch, which immediately
precedes the submission in the trace (no re-fetch between check and
submission).  The first revision's `/comprar` endpoint does not satisfy this. -/
theorem C1_buy_invariant_latest_revision :
    (∀ (env : ExchangeEnv) (req : Option BuyRequest) (symbol : String) (amount : ℚ),
      Event.placeOrder symbol amount ∈ (handleBuyCrypto env req).events →
      isTradingPairValid symbol = true ∧
      ∃ accountInfo tail,
        env.accountResult = some accountInfo ∧
        hasSufficientBalance accountInfo BRL amount = true ∧
        (handleBuyCrypto env req).events =
          Event.fetchSnapshot :: Event.placeOrder symbol amount :: tail ∧
        Event.fetchSnapshot ∉ tail) ∧
    (∀ (env : ExchangeEnv) (req : WebhookReq) (symbol : String) (amount : ℚ),
      Event.placeOrder symbol amount ∈ (handleWhatsAppWebhook env req).events →
      isTradingPairValid symbol = true ∧
      ∃ accountInfo tail,
        env.accountResult = some accountInfo ∧
        hasSufficientBalance accountInfo BRL amount = true ∧
        (handleWhatsAppWebhook env req).events =
          Event.fetchSnapshot :: Event.placeOrder symbol amount :: tail ∧
        Event.fetchSnapshot ∉ tail) := by
  constructor
  · intro env req symbol amount hmem
    match req with
    | none => simp [handleBuyCrypto] at hmem
    | some r =>
      by_cases hpos : r.amount ≤ 0
      · simp [handleBuyCrypto, hpos] at hmem
      · cases hacc : env.accountResult with
        | none => simp [handleBuyCrypto, hpos, isTradingPairValid, hacc] at hmem
        | some info =>
          by_cases hs : hasSufficientBalance info BRL r.amount = true
          · cases hbuy : env.buyResult with
            | none =>
              simp [handleBuyCrypto, hpos, isTradingPairValid, hacc, hs, hbuy] at hmem
              obtain ⟨rfl, rfl⟩ := hmem
              exact ⟨rfl, info, [], rfl, hs,
                by simp [handleBuyCrypto, hpos, isTradingPairValid, hacc, hs, hbuy],
                by simp⟩
            | some orderId =>
              simp [handleBuyCrypto, hpos, isTradingPairValid, hacc, hs, hbuy] at hmem
              obtain ⟨rfl, rfl⟩ := hmem
              exact ⟨rfl, info, [], rfl, hs,
                by simp [handleBuyCrypto, hpos, isTradingPairValid, hacc, hs, hbuy],
                by simp⟩
          · simp [handleBuyCrypto, hpos, isTradingPairValid, hacc, hs] at hmem
  · intro env req symbol amount hmem
    match hfm : firstMessage req with
    | none =>
      rw [show handleWhatsAppWebhook env req = ⟨200, [], .noMessage⟩ from by
        simp [handleWhatsAppWebhook, hfm]] at hmem
      simp at hmem
    | some m =>
      rw [show handleWhatsAppWebhook env req =
          runIntent env m.fromId (parseCommand m.textBody) from by
        simp [handleWhatsAppWebhook, hfm]] at hmem ⊢
      exact runIntent_placeOrder_invariant env m.fromId
        (parseCommand m.textBody) symbol amount hmem

/-- C1 witness: a successful structured buy against a snapshot holding 200 BRL
satisfies the invariant's conclusion with the order for 100 BRL placed right
after the fetch. -/
theorem C1_buy_invariant_latest_revision_witness :
    isTradingPairValid "BTCBRL" = true ∧
    ∃ accountInfo tail,
      (ExchangeEnv.mk (some ⟨[⟨"BRL", "200"⟩]⟩) (some "42")).accountResult =
        some accountInfo ∧
      hasSufficientBalance accountInfo BRL 100 = true ∧
      (handleBuyCrypto ⟨some ⟨[⟨"BRL", "200"⟩]⟩, some "42"⟩
          (some ⟨"BTC", 100⟩)).events =
        Event.fetchSnapshot :: Event.placeOrder "BTCBRL" 100 :: tail ∧
      Event.fetchSnapshot ∉ tail :=
  C1_buy_invariant_latest_revision.1 ⟨some ⟨[⟨"BRL", "200"⟩]⟩, some "42"⟩
    (some ⟨"BTC", 100⟩) "BTCBRL" 100 (by decide)

/-- SHA-256 always serializes to exactly 32 bytes. -/
theorem sha256_length (msg : List Nat) : (sha256 msg).length = 32 := by
  simp [sha256, word4]

/-- Every byte of a word serialization is below 256. -/
theorem word4_lt (w : Nat) : ∀ b ∈ word4 w, b < 256 := by
  intro b hb
  simp only [word4, List.mem_cons, List.not_mem_nil, or_false] at hb
  rcases hb with rfl | rfl | rfl | rfl <;> exact Nat.mod_lt _ (by norm_num)

/-- Every byte SHA-256 outputs is below 256. -/
theorem sha256_bytes_lt (msg : List Nat) : ∀ b ∈ sha256 msg, b < 256 := by
  intro b hb
  simp only [sha256, List.mem_append] at hb
  rcases hb with ((((((h | h) | h) | h) | h) | h) | h) | h <;> exact word4_lt _ b h

/-- Hex encoding yields two characters per byte. -/
theorem hexOfBytes_length (l : List Nat) : (hexOfBytes l).length = 2 * l.length := by
  induction l with
  | nil => rfl
  | cons a l ih =>
    show (hexOfBytes (a :: l)).length = 2 * (l.length + 1)
    have : hexOfBytes (a :: l) =
        hexDigitLower (a / 16) :: hexDigitLower (a % 16) :: hexOfBytes l := rfl
    rw [this]
    simp [ih]
    omega

/-- A hex digit of a value below 16 is a lowercase hex character. -/
theorem hexDigitLower_mem : ∀ d < 16, hexDigitLower d ∈ "0123456789abcdef".toList := by
  decide

/-- Hex digits are injective below 16. -/
theorem hexDigitLower_inj : ∀ a < 16, ∀ b < 16,
    hexDigitLower a = hexDigitLower b → a = b := by
  decide

/-- Every character of the hex encoding of a byte list is lowercase hex. -/
theorem hexOfBytes_mem_hex (l : List Nat) (hl : ∀ b ∈ l, b < 256) :
    ∀ c ∈ hexOfBytes l, c ∈ "0123456789abcdef".toList := by
  induction l with
  | nil => intro c hc; exact absurd hc (by simp [hexOfBytes])
  | cons a l ih =>
    intro c hc
    have ha : a < 256 := hl a (by simp)
    have : hexOfBytes (a :: l) =
        hexDigitLower (a / 16) :: hexDigitLower (a % 16) :: hexOfBytes l := rfl
    rw [this] at hc
    rcases List.mem_cons.1 hc with rfl | hc
    · exact hexDigitLower_mem _ (Nat.div_lt_of_lt_mul (by omega))
    rcases List.mem_cons.1 hc with rfl | hc
    · exact hexDigitLower_mem _ (Nat.mod_lt _ (by norm_num))
    · exact ih (fun b hb => hl b (by simp [hb])) c hc

/-- Hex encoding is injective on byte lists. -/
theorem hexOfBytes_inj : ∀ l1 l2 : List Nat, (∀ b ∈ l1, b < 256) →
    (∀ b ∈ l2, b < 256) → hexOfBytes l1 = hexOfBytes l2 → l1 = l2 := by
  intro l1
  induction l1 with
  | nil =>
    intro l2 _ _ h
    cases l2 with
    | nil => rfl
    | cons b l2 => exact absurd h (by simp [hexOfBytes])
  | cons a l1 ih =>
    intro l2 h1 h2 h
    cases l2 with
    | nil => exact absurd h (by simp [hexOfBytes])
    | cons b l2 =>
      have e1 : hexOfBytes (a :: l1) =
          hexDigitLower (a / 16) :: hexDigitLower (a % 16) :: hexOfBytes l1 := rfl
      have e2 : hexOfBytes (b :: l2) =
          hexDigitLower (b / 16) :: hexDigitLower (b % 16) :: hexOfBytes l2 := rfl
      rw [e1, e2] at h
      injection h with hd h
      injection h with hm h
      have ha : a < 256 := h1 a (by simp)
      have hb : b < 256 := h2 b (by simp)
      have hdiv : a / 16 = b / 16 :=
        hexDigitLower_inj _ (Nat.div_lt_of_lt_mul (by omega)) _
          (Nat.div_lt_of_lt_mul (by omega)) hd
      have hmod : a % 16 = b % 16 :=
        hexDigitLower_inj _ (Nat.mod_lt _ (by norm_num)) _
          (Nat.mod_lt _ (by norm_num)) hm
      have htl : l1 = l2 :=
        ih l2 (fun x hx => h1 x (by simp [hx])) (fun x hx => h2 x (by simp [hx])) h
      have : a = b := by omega
      rw [this, htl]

/-- HMAC output is a 32-byte digest. -/
theorem hmacSha256_length (key msg : List Nat) :
    (hmacSha256 key msg).length = 32 :=
  sha256_length _

/-- HMAC output bytes are below 256. -/
theorem hmacSha256_bytes_lt (key msg : List Nat) :
    ∀ b ∈ hmacSha256 key msg, b < 256 :=
  sha256_bytes_lt _

/-- C7: the signer is a pure deterministic function — equal secret and data
give the identical signature; the output is always 64 lowercase hex
characters; and (hex being injective on digests) distinct HMAC-SHA-256
digests give distinct signatures, which under HMAC collision-resistance means
the signature differs whenever either input differs. -/
theorem C7_createSignature_deterministic_lowercase_hex :
    (∀ s1 d1 s2 d2 : String, s1 = s2 → d1 = d2 →
      createSignature s1 d1 = createSignature s2 d2) ∧
    (∀ s d : String, (createSignature s d).length = 64 ∧
      ∀ c ∈ (createSignature s d).toList, c ∈ "0123456789abcdef".toList) ∧
    (∀ s1 d1 s2 d2 : String,
      hmacSha256 (strBytes s1) (strBytes d1) ≠ hmacSha256 (strBytes s2) (strBytes d2) →
      createSignature s1 d1 ≠ createSignature s2 d2) := by
  refine ⟨fun s1 d1 s2 d2 hs hd => by rw [hs, hd], fun s d => ⟨?_, ?_⟩, ?_⟩
  · show (hexOfBytes (hmacSha256 (strBytes s) (strBytes d))).length = 64
    rw [hexOfBytes_length, hmacSha256_length]
  · intro c hc
    exact hexOfBytes_mem_hex _ (hmacSha256_bytes_lt _ _) c hc
  · intro s1 d1 s2 d2 hne heq
    apply hne
    have hdata := congrArg String.data heq
    exact hexOfBytes_inj _ _ (hmacSha256_bytes_lt _ _) (hmacSha256_bytes_lt _ _) hdata

set_option maxRecDepth 100000 in
/-- C7 witness: the theorem's three components at concrete inputs — the
signature of `("a", "b")` is reproducible, 64 characters long, its first
character is a lowercase hex character, and it differs from the signature of
`("a", "c")` since the digests differ. -/
theorem C7_createSignature_deterministic_lowercase_hex_witness :
    createSignature "a" "b" = createSignature "a" "b" ∧
    (createSignature "a" "b").length = 64 ∧
    '0' ∈ (createSignature "a" "b").toList ∧
    '0' ∈ "0123456789abcdef".toList ∧
    createSignature "a" "b" ≠ createSignature "a" "c" :=
  ⟨C7_createSignature_deterministic_lowercase_hex.1 "a" "b" "a" "b" rfl rfl,
   (C7_createSignature_deterministic_lowercase_hex.2.1 "a" "b").1,
   by decide,
   (C7_createSignature_deterministic_lowercase_hex.2.1 "a" "b").2 '0' (by decide),
   C7_createSignature_deterministic_lowercase_hex.2.2 "a" "b" "a" "c" (by decide)⟩

/-- Sorting the six buy-order fields by key puts `signature` third, between
`side` and `symbol`. -/
theorem sortByKey_buy_six (vS vQ vT vSig : List Char) :
    sortByKey ([("symbol".toList, vS), ("side".toList, "BUY".toList),
        ("type".toList, "MARKET".toList), ("quoteOrderQty".toList, vQ),
        ("timestamp".toList, vT)] ++ [("signature".toList, vSig)]) =
      [("quoteOrderQty".toList, vQ), ("side".toList, "BUY".toList),
       ("signature".toList, vSig), ("symbol".toList, vS),
       ("timestamp".toList, vT), ("type".toList, "MARKET".toList)] := rfl

/-- Sorting the five fields signed over keeps the same relative order, without
the `signature` entry. -/
theorem sortByKey_buy_five (vS vQ vT : List Char) :
    sortByKey [("symbol".toList, vS), ("side".toList, "BUY".toList),
        ("type".toList, "MARKET".toList), ("quoteOrderQty".toList, vQ),
        ("timestamp".toList, vT)] =
      [("quoteOrderQty".toList, vQ), ("side".toList, "BUY".toList),
       ("symbol".toList, vS), ("timestamp".toList, vT),
       ("type".toList, "MARKET".toList)] := rfl

/-- An upper-hex digit below 16 is never the separator `&`. -/
theorem hexDigitUpper_ne_amp : ∀ d < 16, hexDigitUpper d ≠ '&' := by decide

/-- Characters `QueryEscape` keeps are never the separator `&`. -/
theorem unreserved_ne_amp (c : Char) (h : isUnreservedQuery c = true) : c ≠ '&' := by
  intro hc
  subst hc
  exact absurd h (by decide)

/-- The escape of one character never contains the separator `&`. -/
theorem escapeChar_ne_amp (c : Char) : '&' ∉ escapeChar c := by
  by_cases h : isUnreservedQuery c = true
  · rw [escapeChar, if_pos h]
    simp
    exact fun hc => unreserved_ne_amp c h hc.symm
  · rw [escapeChar, if_neg h]
    by_cases hsp : c = ' '
    · rw [if_pos hsp]; decide
    · rw [if_neg hsp]
      intro hc
      simp only [List.mem_cons, List.not_mem_nil, or_false] at hc
      rcases hc with hc | hc | hc
      · exact absurd hc.symm (by decide)
      · exact hexDigitUpper_ne_amp _ (by omega) hc.symm
      · exact hexDigitUpper_ne_amp _ (Nat.mod_lt _ (by norm_num)) hc.symm

/-- Escaped values never contain the separator `&`. -/
theorem queryEscapeL_ne_amp (l : List Char) : '&' ∉ queryEscapeL l := by
  induction l with
  | nil => simp [queryEscapeL]
  | cons c l ih =>
    intro h
    rw [show queryEscapeL (c :: l) = escapeChar c ++ queryEscapeL l from rfl] at h
    rcases List.mem_append.1 h with h | h
    · exact escapeChar_ne_amp c h
    · exact ih h

/-- `QueryEscape` is the identity on strings of unescaped characters. -/
theorem queryEscapeL_id (l : List Char) (h : ∀ c ∈ l, isUnreservedQuery c = true) :
    queryEscapeL l = l := by
  induction l with
  | nil => rfl
  | cons c l ih =>
    rw [show queryEscapeL (c :: l) = escapeChar c ++ queryEscapeL l from rfl,
      escapeChar, if_pos (h c (by simp)), ih (fun x hx => h x (by simp [hx]))]
    rfl

/-- `splitAmp` of an `&`-free string is that single chunk. -/
theorem splitAmp_no_amp (l : List Char) (h : '&' ∉ l) : splitAmp l = [l] := by
  induction l with
  | nil => rfl
  | cons c cs ih =>
    have hc : ¬c = '&' := fun hcc => h (by simp [hcc])
    rw [splitAmp, if_neg hc, ih (fun hm => h (by simp [hm]))]

/-- `splitAmp` peels one `&`-free chunk off the front. -/
theorem splitAmp_chunk (x t : List Char) (hx : '&' ∉ x) :
    splitAmp (x ++ '&' :: t) = x :: splitAmp t := by
  induction x with
  | nil => simp [splitAmp]
  | cons c cs ih =>
    have hc : ¬c = '&' := fun hcc => hx (by simp [hcc])
    rw [List.cons_append, splitAmp, if_neg hc, ih (fun hm => hx (by simp [hm]))]

/-- `splitAmp` inverts `joinAmp` on nonempty lists of `&`-free chunks. -/
theorem splitAmp_joinAmp : ∀ chunks : List (List Char), chunks ≠ [] →
    (∀ ch ∈ chunks, '&' ∉ ch) → splitAmp (joinAmp chunks) = chunks := by
  intro chunks
  induction chunks with
  | nil => intro h; exact absurd rfl h
  | cons x rest ih =>
    intro _ h
    cases rest with
    | nil => exact splitAmp_no_amp x (h x (by simp))
    | cons y rest' =>
      rw [joinAmp, splitAmp_chunk x _ (h x (by simp)),
        ih (by simp) (fun ch hch => h ch (by simp [hch]))]

/-- A list starts with itself (plus any suffix). -/
theorem startsWithL_append_self : ∀ (p x : List Char), startsWithL (p ++ x) p = true := by
  intro p
  induction p with
  | nil => intro x; cases x <;> rfl
  | cons c cs ih => intro x; simp [startsWithL, ih]

/-- A decimal digit character below 10. -/
theorem digitChar_isDigit : ∀ d < 10, (digitChar d).isDigit = true := by decide

/-- Every character the fuelled decimal renderer emits is a digit. -/
theorem natReprAux_digits : ∀ (fuel n : Nat), ∀ c ∈ natReprAux fuel n,
    c.isDigit = true := by
  intro fuel
  induction fuel with
  | zero => intro n c hc; exact absurd hc (by simp [natReprAux])
  | succ fuel ih =>
    intro n c hc
    by_cases h : n < 10
    · rw [natReprAux, if_pos h] at hc
      simp only [List.mem_singleton] at hc
      subst hc
      exact digitChar_isDigit n h
    · rw [natReprAux, if_neg h] at hc
      rcases List.mem_append.1 hc with hc | hc
      · exact ih (n / 10) c hc
      · simp only [List.mem_singleton] at hc
        subst hc
        exact digitChar_isDigit _ (Nat.mod_lt _ (by norm_num))

/-- Every character of a rendered natural number is a digit. -/
theorem natRepr_digits (n : Nat) : ∀ c ∈ natRepr n, c.isDigit = true :=
  natReprAux_digits (n + 1) n

/-- A digit character is kept unescaped by `QueryEscape`. -/
theorem digit_unreserved (c : Char) (h : c.isDigit = true) :
    isUnreservedQuery c = true := by
  simp [isUnreservedQuery, Char.isAlphanum, h]

/-- Every character of a `%.2f` rendering is kept unescaped by `QueryEscape`. -/
theorem formatF2_unreserved (q : ℚ) : ∀ c ∈ formatF2 q, isUnreservedQuery c = true := by
  intro c hc
  simp only [formatF2, List.mem_append, List.mem_cons, List.not_mem_nil, or_false] at hc
  rcases hc with (hc | hc) | hc | hc | hc
  · split at hc
    · simp only [List.mem_singleton] at hc; subst hc; decide
    · exact absurd hc (by simp)
  · exact digit_unreserved c (natRepr_digits _ c hc)
  · subst hc; decide
  · subst hc
    exact digit_unreserved _ (digitChar_isDigit _ (by omega))
  · subst hc
    exact digit_unreserved _ (digitChar_isDigit _ (Nat.mod_lt _ (by norm_num)))

/-- Lowercase hex characters are kept unescaped by `QueryEscape`. -/
theorem hex_unreserved : ∀ c ∈ "0123456789abcdef".toList,
    isUnreservedQuery c = true := by decide

/-- Every character of a `createSignature` output is kept unescaped. -/
theorem signature_unreserved (secretKey data : String) :
    ∀ c ∈ (createSignature secretKey data).toList, isUnreservedQuery c = true :=
  fun c hc => hex_unreserved c
    (hexOfBytes_mem_hex _ (hmacSha256_bytes_lt _ _) c hc)

/-- C4: the transmitted market-buy body consists of exactly the six sorted
fields `quoteOrderQty` (the notional rendered by `%.2f`, verbatim), `side=BUY`,
`signature`, `symbol`, `timestamp` and `type=MARKET`; removing the `signature`
field from the transmitted string yields exactly the string the HMAC was
computed over; the signature is the HMAC-SHA-256 of that signed string; and
the `%.2f` rendering always carries exactly two digits after the point. -/
theorem C4_buy_body_signed_equals_transmitted :
    ∀ (secretKey symbol timestamp : String) (fiatAmount : ℚ),
      splitAmp (buyRequestBody secretKey symbol fiatAmount timestamp) =
        ["quoteOrderQty=".toList ++ formatF2 fiatAmount,
         "side=BUY".toList,
         "signature=".toList ++
           (buySignature secretKey symbol fiatAmount timestamp).toList,
         "symbol=".toList ++ queryEscapeL symbol.toList,
         "timestamp=".toList ++ queryEscapeL timestamp.toList,
         "type=MARKET".toList] ∧
      stripSignatureField (buyRequestBody secretKey symbol fiatAmount timestamp) =
        buySignedString symbol fiatAmount timestamp ∧
      buySignature secretKey symbol fiatAmount timestamp =
        createSignature secretKey
          (String.mk (buySignedString symbol fiatAmount timestamp)) ∧
      ∃ intDigits d1 d2, formatF2 fiatAmount =
        (if fiatAmount < 0 then ['-'] else []) ++ intDigits ++ ['.', d1, d2] ∧
        (∀ c ∈ intDigits, c.isDigit = true) ∧
        d1.isDigit = true ∧ d2.isDigit = true := by
  intro secretKey symbol timestamp fiatAmount
  have hQ : queryEscapeL (formatF2 fiatAmount) = formatF2 fiatAmount :=
    queryEscapeL_id _ (formatF2_unreserved fiatAmount)
  have hSig : queryEscapeL
      (buySignature secretKey symbol fiatAmount timestamp).toList =
      (buySignature secretKey symbol fiatAmount timestamp).toList :=
    queryEscapeL_id _ (signature_unreserved _ _)
  have hsigned : buySignedString symbol fiatAmount timestamp =
      joinAmp ["quoteOrderQty=".toList ++ formatF2 fiatAmount,
               "side=BUY".toList,
               "symbol=".toList ++ queryEscapeL symbol.toList,
               "timestamp=".toList ++ queryEscapeL timestamp.toList,
               "type=MARKET".toList] := by
    rw [buySignedString, buyOrderValues, valuesEncode, sortByKey_buy_five]
    simp only [List.map]
    rw [hQ]
    rfl
  have hbody : buyRequestBody secretKey symbol fiatAmount timestamp =
      joinAmp ["quoteOrderQty=".toList ++ formatF2 fiatAmount,
               "side=BUY".toList,
               "signature=".toList ++
                 (buySignature secretKey symbol fiatAmount timestamp).toList,
               "symbol=".toList ++ queryEscapeL symbol.toList,
               "timestamp=".toList ++ queryEscapeL timestamp.toList,
               "type=MARKET".toList] := by
    rw [buyRequestBody, buyOrderValues, valuesEncode, sortByKey_buy_six]
    simp only [List.map]
    rw [hQ, hSig]
    rfl
  have hchunks : ∀ ch ∈ ["quoteOrderQty=".toList ++ formatF2 fiatAmount,
      "side=BUY".toList,
      "signature=".toList ++
        (buySignature secretKey symbol fiatAmount timestamp).toList,
      "symbol=".toList ++ queryEscapeL symbol.toList,
      "timestamp=".toList ++ queryEscapeL timestamp.toList,
      "type=MARKET".toList], '&' ∉ ch := by
    intro ch hch
    simp only [List.mem_cons, List.not_mem_nil, or_false] at hch
    rcases hch with rfl | rfl | rfl | rfl | rfl | rfl
    · intro h
      rcases List.mem_append.1 h with h | h
      · exact absurd h (by decide)
      · exact unreserved_ne_amp '&' (formatF2_unreserved fiatAmount '&' h) rfl
    · decide
    · intro h
      rcases List.mem_append.1 h with h | h
      · exact absurd h (by decide)
      · exact unreserved_ne_amp '&' (signature_unreserved _ _ '&' h) rfl
    · intro h
      rcases List.mem_append.1 h with h | h
      · exact absurd h (by decide)
      · exact queryEscapeL_ne_amp _ h
    · intro h
      rcases List.mem_append.1 h with h | h
      · exact absurd h (by decide)
      · exact queryEscapeL_ne_amp _ h
    · decide
  have hsplit : splitAmp (buyRequestBody secretKey symbol fiatAmount timestamp) =
      ["quoteOrderQty=".toList ++ formatF2 fiatAmount,
       "side=BUY".toList,
       "signature=".toList ++
         (buySignature secretKey symbol fiatAmount timestamp).toList,
       "symbol=".toList ++ queryEscapeL symbol.toList,
       "timestamp=".toList ++ queryEscapeL timestamp.toList,
       "type=MARKET".toList] := by
    rw [hbody]
    exact splitAmp_joinAmp _ (by simp) hchunks
  refine ⟨hsplit, ?_, rfl, ?_⟩
  · rw [stripSignatureField, hsplit]
    have f1 : startsWithL ("quoteOrderQty=".toList ++ formatF2 fiatAmount)
        ("signature=".toList) = false := rfl
    have f2 : startsWithL ("side=BUY".toList) ("signature=".toList) = false := rfl
    have f3 : startsWithL ("signature=".toList ++
        (buySignature secretKey symbol fiatAmount timestamp).toList)
        ("signature=".toList) = true := startsWithL_append_self _ _
    have f4 : startsWithL ("symbol=".toList ++ queryEscapeL symbol.toList)
        ("signature=".toList) = false := rfl
    have f5 : startsWithL ("timestamp=".toList ++ queryEscapeL timestamp.toList)
        ("signature=".toList) = false := rfl
    have f6 : startsWithL ("type=MARKET".toList) ("signature=".toList) = false := rfl
    simp only [List.filter, f1, f2, f3, f4, f5, f6, Bool.not_false, Bool.not_true]
    rw [hsigned]
  · refine ⟨natRepr ((round (|fiatAmount| * 100)).toNat / 100),
      digitChar ((round (|fiatAmount| * 100)).toNat % 100 / 10),
      digitChar ((round (|fiatAmount| * 100)).toNat % 10), rfl,
      natRepr_digits _, digitChar_isDigit _ (by omega),
      digitChar_isDigit _ (Nat.mod_lt _ (by norm_num))⟩

/-- C4 witness: the transmitted body of a concrete order splits into exactly
the six sorted fields. -/
theorem C4_buy_body_signed_equals_transmitted_witness :
    splitAmp (buyRequestBody "sec" "BTCBRL" 100 "1700000000000") =
      ["quoteOrderQty=".toList ++ formatF2 100,
       "side=BUY".toList,
       "signature=".toList ++ (buySignature "sec" "BTCBRL" 100 "1700000000000").toList,
       "symbol=".toList ++ queryEscapeL "BTCBRL".toList,
       "timestamp=".toList ++ queryEscapeL "1700000000000".toList,
       "type=MARKET".toList] :=
  (C4_buy_body_signed_equals_transmitted "sec" "BTCBRL" "1700000000000" 100).1

/-- C2 witness: the amended characterization applied to a concrete one-entry
snapshot whose BRL balance covers the requirement. -/
theorem C2_hasSufficientBalance_amended_witness :
    ∃ pre b post, (AccountInfo.mk [⟨"BRL", "70"⟩]).balances = pre ++ b :: post ∧
      (∀ c ∈ pre, c.asset ≠ "BRL") ∧ b.asset = "BRL" ∧
      ∃ q, parseFloat b.free = some q ∧ (50 : ℚ) ≤ q :=
  ((C2_hasSufficientBalance_amended ⟨[⟨"BRL", "70"⟩]⟩ "BRL" 50).1).mp (by decide)

end Zap
